import Mathlib

/-!
Verification of the experiment-orchestrator core of the
`synthetic_cross_pollination` repository.

The Lean definitions below are shallow embeddings of the Python source:

* `Participant`, `mark_failed`, `mark_complete`, `get_by_status`,
  `to_dict`, `from_dict`            — `src/participants.py`
* `phase2_run`                      — `src/phases/phase2_threshold_check.py`
* `run_phases`, `run_experiment`    — `src/experiment.py`
* `cluster_embeddingsWithK`, `cluster_embeddings`, `get_cluster_members`
                                    — `src/clustering.py`
* `assign_cluster_ids`, `build_cluster_infos`
                                    — `src/phases/phase4_summaries.py` (lines 137-174)
* `highest_voted`, `predefined_opposition`, `furthestSelection`
                                    — `src/opposition.py`

External collaborators (sklearn estimators, the silhouette scorer, the
LLM/embedding transport) are modelled as explicit function parameters,
with their documented contracts stated as hypotheses where needed.
JSON values are modelled by the inductive type `JValue`; machine floats
that only ever undergo exact-result comparisons are modelled as `ℚ`,
and the cosine computations of the opposition selector (which need a
square root) are modelled over `ℝ`.
-/

/-- JSON-like values: the payload type of Python dicts/lists that the core
passes through opaquely (demographics, dialogue transcripts). -/
inductive JValue where
  | null : JValue
  | str : String → JValue
  | bool : Bool → JValue
  | num : ℚ → JValue
  | arr : List JValue → JValue
  | obj : List (String × JValue) → JValue

/-- The `Participant` dataclass of `src/participants.py` (lines 10-41),
field for field.  Optional fields default to `none`, `status` defaults to
`"pending"`, exactly as in the source. -/
structure Participant where
  participant_id : String
  condition : String
  base_persona : String
  demographics : List (String × JValue)
  enriched_persona : String
  initial_choice : Option String := none
  initial_explanation : Option String := none
  final_choice : Option String := none
  position_changed : Option Bool := none
  clarification_transcript : Option (List JValue) := none
  adversarial_transcript : Option (List JValue) := none
  opposition_view : Option String := none
  cross_pollination_content : Option String := none
  individual_summary : Option String := none
  individual_summary_embedding : Option (List ℚ) := none
  cluster_id : Option String := none
  status : String := "pending"
  error_message : Option String := none

/-- `get_by_status` of `src/participants.py` (lines 104-114). -/
def get_by_status (participants : List Participant) (status : String) : List Participant :=
  participants.filter (fun p => p.status = status)

/-- `get_by_condition` of `src/participants.py` (lines 91-101). -/
def get_by_condition (participants : List Participant) (condition : String) : List Participant :=
  participants.filter (fun p => p.condition = condition)

/-- `get_by_conditions` of `src/participants.py` (lines 117-129). -/
def get_by_conditions (participants : List Participant) (conditions : List String) : List Participant :=
  participants.filter (fun p => p.condition ∈ conditions)

/-- `mark_failed` of `src/participants.py` (lines 156-164): sets
`status = "failed"` and records the error message, unconditionally. -/
def mark_failed (participant : Participant) (error_message : String) : Participant :=
  { participant with status := "failed", error_message := some error_message }

/-- `mark_complete` of `src/participants.py` (lines 167-174): sets
`status = "complete"`, unconditionally (there is no guard on the current
status). -/
def mark_complete (participant : Participant) : Participant :=
  { participant with status := "complete" }

/-! ### Serialization (`to_dict` / `from_dict`, `src/participants.py` 132-153)

`dataclasses.asdict` turns each field into a JSON value; `Participant(**data)`
reads every field back by keyword.  The encoders below give the JSON shape of
each field type, the decoders read it back (a decoder returns `none` exactly
when the JSON value cannot be the encoding of any field value). -/

/-- Encoding of an optional string field (`None` becomes JSON null). -/
def encOptStr : Option String → JValue
  | none => .null
  | some s => .str s

/-- Decoder matching `encOptStr`. -/
def decOptStr : JValue → Option (Option String)
  | .null => some none
  | .str s => some (some s)
  | _ => none

/-- Encoding of an optional boolean field. -/
def encOptBool : Option Bool → JValue
  | none => .null
  | some b => .bool b

/-- Decoder matching `encOptBool`. -/
def decOptBool : JValue → Option (Option Bool)
  | .null => some none
  | .bool b => some (some b)
  | _ => none

/-- Encoding of an optional opaque-list field (dialogue transcripts). -/
def encOptArr : Option (List JValue) → JValue
  | none => .null
  | some l => .arr l

/-- Decoder matching `encOptArr`. -/
def decOptArr : JValue → Option (Option (List JValue))
  | .null => some none
  | .arr l => some (some l)
  | _ => none

/-- Encoding of an optional embedding vector (list of numbers). -/
def encOptVec : Option (List ℚ) → JValue
  | none => .null
  | some l => .arr (l.map .num)

/-- Decoder for a single JSON number. -/
def decNum : JValue → Option ℚ
  | .num q => some q
  | _ => none

/-- Decoder for a list of JSON numbers. -/
def decNums : List JValue → Option (List ℚ)
  | [] => some []
  | v :: rest =>
    match decNum v, decNums rest with
    | some q, some qs => some (q :: qs)
    | _, _ => none

/-- Decoder matching `encOptVec`. -/
def decOptVec : JValue → Option (Option (List ℚ))
  | .null => some none
  | .arr l => (decNums l).map some
  | _ => none

/-- Decoder for a mandatory string field. -/
def decStr : JValue → Option String
  | .str s => some s
  | _ => none

/-- Decoder for the demographics dict (kept opaque, as in the source). -/
def decObj : JValue → Option (List (String × JValue))
  | .obj fields => some fields
  | _ => none

/-- `to_dict` of `src/participants.py` (lines 132-141): `asdict` produces one
key per dataclass field, in declaration order. -/
def to_dict (p : Participant) : JValue :=
  .obj [
    ("participant_id", .str p.participant_id),
    ("condition", .str p.condition),
    ("base_persona", .str p.base_persona),
    ("demographics", .obj p.demographics),
    ("enriched_persona", .str p.enriched_persona),
    ("initial_choice", encOptStr p.initial_choice),
    ("initial_explanation", encOptStr p.initial_explanation),
    ("final_choice", encOptStr p.final_choice),
    ("position_changed", encOptBool p.position_changed),
    ("clarification_transcript", encOptArr p.clarification_transcript),
    ("adversarial_transcript", encOptArr p.adversarial_transcript),
    ("opposition_view", encOptStr p.opposition_view),
    ("cross_pollination_content", encOptStr p.cross_pollination_content),
    ("individual_summary", encOptStr p.individual_summary),
    ("individual_summary_embedding", encOptVec p.individual_summary_embedding),
    ("cluster_id", encOptStr p.cluster_id),
    ("status", .str p.status),
    ("error_message", encOptStr p.error_message)]

/-- Keyword lookup in a JSON object, as `Participant(**data)` reads fields. -/
def getField : List (String × JValue) → String → Option JValue
  | [], _ => none
  | (k, v) :: rest, key => if k = key then some v else getField rest key

/-- Helper: the (curried) `Participant` constructor used by `from_dict`. -/
def mkParticipant (pid cond bp : String) (dem : List (String × JValue))
    (ep : String) (ic ie fc : Option String) (pc : Option Bool)
    (ct at_ : Option (List JValue)) (ov cpc isum : Option String)
    (iemb : Option (List ℚ)) (cid : Option String) (st : String)
    (em : Option String) : Participant :=
  { participant_id := pid, condition := cond, base_persona := bp,
    demographics := dem, enriched_persona := ep, initial_choice := ic,
    initial_explanation := ie, final_choice := fc, position_changed := pc,
    clarification_transcript := ct, adversarial_transcript := at_,
    opposition_view := ov, cross_pollination_content := cpc,
    individual_summary := isum, individual_summary_embedding := iemb,
    cluster_id := cid, status := st, error_message := em }

/-- `from_dict` of `src/participants.py` (lines 144-153): reconstructs a
`Participant` from its serialized form, reading every field by keyword, as
`Participant(**data)` does. -/
def from_dict (j : JValue) : Option Participant :=
  match j with
  | .obj fields =>
    some mkParticipant <*> ((getField fields "participant_id").bind decStr)
      <*> ((getField fields "condition").bind decStr)
      <*> ((getField fields "base_persona").bind decStr)
      <*> ((getField fields "demographics").bind decObj)
      <*> ((getField fields "enriched_persona").bind decStr)
      <*> ((getField fields "initial_choice").bind decOptStr)
      <*> ((getField fields "initial_explanation").bind decOptStr)
      <*> ((getField fields "final_choice").bind decOptStr)
      <*> ((getField fields "position_changed").bind decOptBool)
      <*> ((getField fields "clarification_transcript").bind decOptArr)
      <*> ((getField fields "adversarial_transcript").bind decOptArr)
      <*> ((getField fields "opposition_view").bind decOptStr)
      <*> ((getField fields "cross_pollination_content").bind decOptStr)
      <*> ((getField fields "individual_summary").bind decOptStr)
      <*> ((getField fields "individual_summary_embedding").bind decOptVec)
      <*> ((getField fields "cluster_id").bind decOptStr)
      <*> ((getField fields "status").bind decStr)
      <*> ((getField fields "error_message").bind decOptStr)
  | _ => none

theorem decOptStr_enc (x : Option String) : decOptStr (encOptStr x) = some x := by
  cases x <;> rfl

theorem decOptBool_enc (x : Option Bool) : decOptBool (encOptBool x) = some x := by
  cases x <;> rfl

theorem decOptArr_enc (x : Option (List JValue)) : decOptArr (encOptArr x) = some x := by
  cases x <;> rfl

theorem decNums_map_num (l : List ℚ) : decNums (l.map JValue.num) = some l := by
  induction l with
  | nil => rfl
  | cons q rest ih => simp [decNums, decNum, ih]

theorem decOptVec_enc (x : Option (List ℚ)) : decOptVec (encOptVec x) = some x := by
  cases x with
  | none => rfl
  | some l => simp [encOptVec, decOptVec, decNums_map_num]

/-! ### Phase 2: threshold check (`src/phases/phase2_threshold_check.py`)

Vote shares are exact in the Python source up to float rounding of a single
division; they are modelled exactly over `ℚ`. -/

/-- One step of Python's `Counter` update: increment the count of `c`,
keeping first-insertion order (new keys are appended at the end). -/
def addVote (votes : List (String × ℕ)) (c : String) : List (String × ℕ) :=
  match votes with
  | [] => [(c, 1)]
  | (o, n) :: rest => if o = c then (o, n + 1) :: rest else (o, n) :: addVote rest c

/-- `Counter(p.initial_choice for p in completed if p.initial_choice)` of
`phase2_threshold_check.run` (line 30): counts the truthy (non-`None`,
non-empty) initial choices, in first-occurrence order. -/
def countVotes (completed : List Participant) : List (String × ℕ) :=
  completed.foldl
    (fun acc p =>
      match p.initial_choice with
      | some c => if c ≠ "" then addVote acc c else acc
      | none => acc)
    []

/-- The result dict of `phase2_threshold_check.run` (lines 66-73). -/
structure Phase2Result where
  phase : ℕ
  continue_ : Bool
  vote_counts : List (String × ℕ)
  total_votes : ℕ
  threshold : ℚ
  termination_option : Option String

/-- `run` of `src/phases/phase2_threshold_check.py` (lines 11-73): tally the
initial votes of status-complete participants; once at least `min_responses`
votes exist, terminate early on the first option whose vote share reaches
`threshold`. -/
def phase2_run (threshold : ℚ) (min_responses : ℕ)
    (participants : List Participant) : Phase2Result :=
  let completed := get_by_status participants "complete"
  let votes := countVotes completed
  let total_votes := votes.foldl (fun acc oc => acc + oc.2) 0
  if total_votes < min_responses then
    ⟨2, true, votes, total_votes, threshold, none⟩
  else
    match votes.find? (fun oc =>
        threshold ≤ (if 0 < total_votes then (oc.2 : ℚ) / (total_votes : ℚ) else 0)) with
    | some oc => ⟨2, false, votes, total_votes, threshold, some oc.1⟩
    | none => ⟨2, true, votes, total_votes, threshold, none⟩

/-- Modelled from the spec: the early-termination condition as the spec states
it — at least the minimum sample size of completed votes, and some option
whose share of those votes reaches the disagreement threshold.  Used only to
compare `phase2_run` against the claimed condition. -/
def specPhase2Termination (threshold : ℚ) (min_responses : ℕ)
    (participants : List Participant) : Prop :=
  let votes := countVotes (get_by_status participants "complete")
  let total_votes := votes.foldl (fun acc oc => acc + oc.2) 0
  min_responses ≤ total_votes ∧
    ∃ oc ∈ votes, threshold ≤ (oc.2 : ℚ) / (total_votes : ℚ)

/-! ### Orchestrator (`src/experiment.py`)

Phases 1 and 3-8 call the LLM/embedding collaborators; their effect on the
participant list is abstracted as a function parameter `eff` (phase number →
participant list → participant list).  Phase 2 is the concrete `phase2_run`
above.  Phase 9 (save) performs I/O only and never mutates participants.
`run_phases` mirrors the chain of `if start_phase <= k:` blocks of
`run_experiment` (lines 107-252), recording the executed phase numbers. -/

/-- Outcome of one pass through the phase loop: the phase numbers executed in
order, and whether the run terminated early at phase 2. -/
structure RunResult where
  executed : List ℕ
  terminated_early : Bool
deriving DecidableEq

/-- The checkpoint record consumed on resume (`load_checkpoint`,
`src/checkpoint.py` lines 117-147): the fields `run_experiment` reads. -/
structure Checkpoint where
  last_completed_phase : ℕ
  terminated_early : Bool
deriving DecidableEq

/-- Phases 3-8 followed by the unconditional phase 9, i.e. lines 148-243 of
`src/experiment.py`: each phase `k` runs iff `start_phase ≤ k`; phase 9 always
runs. -/
def tail_phases (eff : ℕ → List Participant → List Participant)
    (start_phase : ℕ) (ps : List Participant) (ex : List ℕ) : RunResult :=
  let s3 := if start_phase ≤ 3 then (eff 3 ps, ex ++ [3]) else (ps, ex)
  let s4 := if start_phase ≤ 4 then (eff 4 s3.1, s3.2 ++ [4]) else s3
  let s5 := if start_phase ≤ 5 then (eff 5 s4.1, s4.2 ++ [5]) else s4
  let s6 := if start_phase ≤ 6 then (eff 6 s5.1, s5.2 ++ [6]) else s5
  let s7 := if start_phase ≤ 7 then (eff 7 s6.1, s6.2 ++ [7]) else s6
  let s8 := if start_phase ≤ 8 then (eff 8 s7.1, s7.2 ++ [8]) else s7
  ⟨s8.2 ++ [9], false⟩

/-- The phase loop of `run_experiment` (lines 107-252): phase 1 if due, then
phase 2 if due — whose `continue = False` branch short-circuits to phase 9
with the early-termination flag (lines 123-144) — then phases 3-8 and the
unconditional phase 9. -/
def run_phases (eff : ℕ → List Participant → List Participant)
    (threshold : ℚ) (min_responses : ℕ)
    (start_phase : ℕ) (ps0 : List Participant) : RunResult :=
  let s1 := if start_phase ≤ 1 then (eff 1 ps0, [1]) else (ps0, ([] : List ℕ))
  if start_phase ≤ 2 then
    let r2 := phase2_run threshold min_responses s1.1
    if r2.continue_ then tail_phases eff start_phase s1.1 (s1.2 ++ [2])
    else ⟨s1.2 ++ [2, 9], true⟩
  else tail_phases eff start_phase s1.1 s1.2

/-- `run_experiment` (lines 25-105): on resume, a missing checkpoint or a
missing participants file is fatal; a checkpoint that records early
termination returns immediately with no phase executed; otherwise the loop
re-enters at `last_completed_phase + 1`.  A fresh run starts at phase 1. -/
def run_experiment (eff : ℕ → List Participant → List Participant)
    (threshold : ℚ) (min_responses : ℕ) (resume : Bool)
    (checkpoint : Option Checkpoint) (loaded : Option (List Participant))
    (fresh : List Participant) : Except String RunResult :=
  if resume then
    match checkpoint with
    | none => .error "No checkpoint found"
    | some cp =>
      match loaded with
      | none => .error "No participants.json found"
      | some ps =>
        if cp.terminated_early then .ok ⟨[], true⟩
        else .ok (run_phases eff threshold min_responses (cp.last_completed_phase + 1) ps)
  else .ok (run_phases eff threshold min_responses 1 fresh)

/-! ### Position clustering engine (`src/clustering.py`)

`sklearn`'s `KMeans`/`AgglomerativeClustering` (`fit_predict`) and
`silhouette_score` are external collaborators; they are modelled by the
function fields of `ClusterEnv`, returning `none` where the Python call would
raise.  Their documented behaviour (one label per sample, labels `0..k-1`,
silhouette in `(-1, 1]`) is assumed as explicit hypotheses in the theorems
that need it. -/

/-- The external clustering and scoring collaborators used by
`cluster_embeddings`. -/
structure ClusterEnv where
  fitPredict : String → ℕ → List (List ℚ) → Option (List ℕ)
  silhouette : List (List ℚ) → List ℕ → Option ℚ

/-- `VALID_ALGORITHMS` of `src/clustering.py` (line 13). -/
def VALID_ALGORITHMS : List String := ["kmeans", "agglomerative"]

/-- The body of the `try:` block for one candidate `k` (lines 100-109): run
the clusterer, then score the labelling; `none` models the raised-and-caught
exception. -/
def attemptK (env : ClusterEnv) (algorithm : String) (embeddings : List (List ℚ))
    (k : ℕ) : Option (List ℕ × ℚ) :=
  match env.fitPredict algorithm k embeddings with
  | none => none
  | some labels =>
    match env.silhouette embeddings labels with
    | none => none
    | some score => some (labels, score)

/-- One iteration of the `for k in range(2, max_k + 1)` loop (lines 99-118):
state is `(best_k, best_score, best_labels)`; a failed attempt is skipped, a
successful one replaces the state iff its score is strictly higher. -/
def kStep (env : ClusterEnv) (algorithm : String) (embeddings : List (List ℚ))
    (best : ℕ × ℚ × List ℕ) (k : ℕ) : ℕ × ℚ × List ℕ :=
  match attemptK env algorithm embeddings k with
  | some ls => if best.2.1 < ls.2 then (k, ls.2, ls.1) else best
  | none => best

/-- `cluster_embeddings` of `src/clustering.py` (lines 37-125), additionally
returning the chosen cluster count: unknown algorithm raises; 0 or 1 samples
short-circuit; 2 samples force a 2-clustering; otherwise the loop above
selects the best `k` in `range(2, min(max_clusters, n) + 1)`, starting from
`(best_k, best_score, best_labels) = (1, -1, [0] * n)`. -/
def cluster_embeddingsWithK (env : ClusterEnv) (embeddings : List (List ℚ))
    (max_clusters : ℕ) (algorithm : String) (min_cluster_size : ℕ) :
    Except String (ℕ × List ℕ) :=
  if algorithm ∉ VALID_ALGORITHMS then
    .error ("Unknown clustering algorithm: " ++ algorithm)
  else
    let n_samples := embeddings.length
    if n_samples = 0 then .ok (0, [])
    else if n_samples = 1 then .ok (1, [0])
    else
      let max_k := min max_clusters n_samples
      if n_samples = 2 then
        match env.fitPredict algorithm 2 embeddings with
        | some labels => .ok (2, labels)
        | none => .error "clustering failed at n = 2"
      else
        let best := (List.range' 2 (max_k - 1)).foldl
          (kStep env algorithm embeddings) (1, -1, List.replicate n_samples 0)
        .ok (best.1, best.2.2)

/-- `cluster_embeddings` as the Python function returns it: the labels only. -/
def cluster_embeddings (env : ClusterEnv) (embeddings : List (List ℚ))
    (max_clusters : ℕ) (algorithm : String) (min_cluster_size : ℕ) :
    Except String (List ℕ) :=
  (cluster_embeddingsWithK env embeddings max_clusters algorithm min_cluster_size).map
    (fun kl => kl.2)

/-- The successful candidate evaluations of the `k` loop, in ascending `k`
order: the `(k, labels, silhouette score)` triples the loop does not skip. -/
def candidateList (env : ClusterEnv) (algorithm : String)
    (embeddings : List (List ℚ)) (max_k : ℕ) : List (ℕ × List ℕ × ℚ) :=
  (List.range' 2 (max_k - 1)).filterMap (fun k =>
    (attemptK env algorithm embeddings k).map (fun ls => (k, ls.1, ls.2)))

/-- One step of `get_cluster_members` (lines 140-144): append `pid` to the
member list of `label`, inserting a fresh singleton group for a new label
(Python dicts keep insertion order). -/
def addMember (clusters : List (ℕ × List String)) (label : ℕ) (pid : String) :
    List (ℕ × List String) :=
  match clusters with
  | [] => [(label, [pid])]
  | (l, ms) :: rest =>
    if l = label then (l, ms ++ [pid]) :: rest else (l, ms) :: addMember rest label pid

/-- `get_cluster_members` of `src/clustering.py` (lines 128-145): group
participant ids by cluster label. -/
def get_cluster_members (labels : List ℕ) (participant_ids : List String) :
    List (ℕ × List String) :=
  (labels.zip participant_ids).foldl (fun acc lp => addMember acc lp.1 lp.2) []

/-! ### Phase 4 clustering step (`src/phases/phase4_summaries.py`, lines 137-174) -/

/-- The `ClusterInfo` dataclass of `src/clustering.py` (lines 16-34). -/
structure ClusterInfo where
  cluster_id : String
  option : String
  description : String
  embedding : List ℚ := []
  member_count : ℕ := 0
  member_ids : List String := []

/-- The f-string `f"{option}_cluster_{label}"` (phase 4, lines 142 and 150). -/
def clusterIdFor (option : String) (label : ℕ) : String :=
  option ++ "_cluster_" ++ toString label

/-- Lines 141-145 of `phase4_summaries.run`: for each `(label, member_ids)`
group in turn, stamp that group's cluster id on every participant whose id is
in `member_ids`. -/
def assign_cluster_ids (option : String)
    (cluster_members : List (ℕ × List String)) (ps : List Participant) :
    List Participant :=
  cluster_members.foldl
    (fun ps' lm =>
      ps'.map (fun p =>
        if p.participant_id ∈ lm.2 then
          { p with cluster_id := some (clusterIdFor option lm.1) }
        else p))
    ps

/-- Lines 148-171 of `phase4_summaries.run`: build one `ClusterInfo` per
group; the cluster description comes from the LLM collaborator `descFn`
(`generate_cluster_description`), with the literal fallback text when it
returns nothing. -/
def build_cluster_infos (option : String)
    (descFn : List (Option String) → String → Option String)
    (cluster_members : List (ℕ × List String)) (ps : List Participant) :
    List ClusterInfo :=
  cluster_members.map (fun lm =>
    let summaries := (ps.filter (fun p => p.participant_id ∈ lm.2)).map
      (fun p => p.individual_summary)
    let description := (descFn summaries option).getD
      ("Participants who chose " ++ option ++ ".")
    { cluster_id := clusterIdFor option lm.1, option := option,
      description := description, member_count := lm.2.length,
      member_ids := lm.2 })

/-- The per-option clustering step of phase 4 (lines 137-174): group the
option's participants by label, then assign cluster ids and build the
`ClusterInfo` records. -/
def phase4_cluster_option (option : String)
    (descFn : List (Option String) → String → Option String)
    (option_participants : List Participant) (labels : List ℕ) :
    List Participant × List ClusterInfo :=
  let cluster_members :=
    get_cluster_members labels (option_participants.map (fun p => p.participant_id))
  (assign_cluster_ids option cluster_members option_participants,
    build_cluster_infos option descFn cluster_members option_participants)

/-! ### Opposition selection (`src/opposition.py`) -/

/-- `_highest_voted` of `src/opposition.py` (lines 43-72): count completed
participants' votes, scan the counts in descending order for an option that
differs from the participant's own choice, fall back to the first differing
configured option, and as a last resort return the participant's own choice.
`Counter.most_common` is a stable descending sort of the insertion-ordered
counts.  `pickDiffering` is the scanning part (lines 60-72): the two `for`
loops with their `return`s and the last-resort return. -/
def pickDiffering (choice : Option String) (sorted_options : List (String × ℕ))
    (topic_options : List String) : Option String :=
  match sorted_options.find? (fun oc => some oc.1 ≠ choice) with
  | some oc => some oc.1
  | none =>
    match topic_options.find? (fun opt => some opt ≠ choice) with
    | some opt => some opt
    | none => choice

/-- `_highest_voted` proper: tally, sort descending, then scan. -/
def highest_voted (participant : Participant) (all_participants : List Participant)
    (topic_options : List String) : Option String :=
  let votes := all_participants.foldl
    (fun acc p =>
      if p.status = "complete" then
        match p.initial_choice with
        | some c => if c ≠ "" then addVote acc c else acc
        | none => acc
      else acc)
    []
  let sorted_options := votes.mergeSort (fun a b => b.2 ≤ a.2)
  pickDiffering participant.initial_choice sorted_options topic_options

/-- `_predefined` of `src/opposition.py` (lines 196-210): return the mapped
opposition for the participant's choice, falling back to `_highest_voted`
when the mapping has no entry (a `None` choice is never a key of the
string-keyed mapping). -/
def predefined_opposition (participant : Participant)
    (all_participants : List Participant) (topic_options : List String)
    (opposition_mapping : List (String × String)) : Option String :=
  match participant.initial_choice with
  | some c =>
    match opposition_mapping.find? (fun kv => kv.1 = c) with
    | some kv => some kv.2
    | none => highest_voted participant all_participants topic_options
  | none => highest_voted participant all_participants topic_options

/-! ### Cosine geometry of `_cluster_embedding` (`src/opposition.py`, lines 288-329)

The distance computation uses square roots, so it is modelled over `ℝ`
(exact real arithmetic, the idealisation of the float computation). -/

/-- `np.dot` on equal-length vectors. -/
noncomputable def dotR : List ℝ → List ℝ → ℝ
  | x :: xs, y :: ys => x * y + dotR xs ys
  | _, _ => 0

/-- `np.linalg.norm`. -/
noncomputable def vecNorm (v : List ℝ) : ℝ := Real.sqrt (dotR v v)

/-- Scaling a vector by a constant. -/
def scaleVec (c : ℝ) (v : List ℝ) : List ℝ := v.map (fun x => c * x)

/-- `distance = 1.0 - similarity` with cosine similarity (lines 311-312). -/
noncomputable def cosineDistance (u v : List ℝ) : ℝ :=
  1 - dotR u v / (vecNorm u * vecNorm v)

open Classical in
/-- One iteration of the `for option, opt_emb in option_embeddings.items()`
loop of `_cluster_embedding` (lines 301-316): skip the participant's own
choice and zero-norm aggregates; otherwise keep the option iff its cosine
distance strictly exceeds the running maximum. -/
noncomputable def furthestStep (pEmb : List ℝ) (own : Option String)
    (acc : ℝ × Option String) (oe : String × List ℝ) : ℝ × Option String :=
  if some oe.1 = own then acc
  else if vecNorm oe.2 = 0 then acc
  else
    let distance := 1 - dotR pEmb oe.2 / (vecNorm pEmb * vecNorm oe.2)
    if acc.1 < distance then (distance, some oe.1) else acc

/-- The full selection loop of `_cluster_embedding` (lines 298-317), started
from `max_distance = -1`, `furthest_option = None`. -/
noncomputable def furthestSelection (pEmb : List ℝ) (own : Option String)
    (option_embeddings : List (String × List ℝ)) : ℝ × Option String :=
  option_embeddings.foldl (furthestStep pEmb own) (-1, none)

/-! ### Concrete sample data shared by witnesses and counterexamples -/

/-- A minimal concrete participant used to instantiate witnesses. -/
def sampleParticipant (pid : String) (condition : String) : Participant :=
  { participant_id := pid, condition := condition, base_persona := "persona",
    demographics := [], enriched_persona := "enriched persona" }

/-- A completed participant that voted for `c`. -/
def votedParticipant (pid : String) (c : String) : Participant :=
  { sampleParticipant pid "simple_voting" with
      status := "complete", initial_choice := some c }

/-- Three completed participants: two votes for `"A"`, one for `"B"`. -/
def wps : List Participant :=
  [votedParticipant "p_0001" "A", votedParticipant "p_0002" "A",
   votedParticipant "p_0003" "B"]

/-- Two completed participants used by the phase 4 witness. -/
def wps2 : List Participant :=
  [votedParticipant "x" "A", votedParticipant "y" "A"]

/-! ### C10 -/

/-- C10: the labels returned by `cluster_embeddings` do not depend on the
`min_cluster_size` argument — two calls differing only in `min_cluster_size`
return equal results (the parameter is accepted but never read). -/
theorem claim_C10_min_cluster_size_unused (env : ClusterEnv)
    (embeddings : List (List ℚ)) (max_clusters : ℕ) (algorithm : String)
    (m₁ m₂ : ℕ) :
    cluster_embeddings env embeddings max_clusters algorithm m₁ =
      cluster_embeddings env embeddings max_clusters algorithm m₂ := rfl

/-! ### C7 -/

/-- C7 counterexample: `mark_complete` applied to a participant whose status
is `"failed"` does not leave the status `"failed"` — it unconditionally sets
`"complete"`, un-failing the participant. -/
theorem claim_C7_counterexample :
    (mark_complete
      { sampleParticipant "p_0001" "acp" with
          status := "failed", error_message := some "LLM call failed" }).status
      ≠ "failed" := by decide

/-- C7 amended: the store setters are unconditional — `mark_failed` always
results in status `"failed"` and `mark_complete` always results in status
`"complete"`, even when the participant is already failed; the store level
does not prevent un-failing (phases 3-8 avoid it only by filtering on
`status == "complete"` before processing). -/
theorem claim_C7_amended (p : Participant) (msg : String)
    (h : p.status = "failed") :
    (mark_failed p msg).status = "failed" ∧
    (mark_failed p msg).error_message = some msg ∧
    (mark_complete p).status = "complete" := by
  exact ⟨rfl, rfl, rfl⟩

/-- Witness for C7: the amended statement evaluated on a concrete failed
participant. -/
theorem claim_C7_amended_witness :
    (mark_failed
        { sampleParticipant "p_0001" "acp" with status := "failed" }
        "boom").status = "failed" ∧
    (mark_failed
        { sampleParticipant "p_0001" "acp" with status := "failed" }
        "boom").error_message = some "boom" ∧
    (mark_complete
        { sampleParticipant "p_0001" "acp" with status := "failed" }).status
      = "complete" :=
  claim_C7_amended
    { sampleParticipant "p_0001" "acp" with status := "failed" } "boom" rfl

/-! ### C6 -/

/-- C6: for every `Participant` value, including ones whose transcript,
embedding, explanation and final-vote fields are null, deserializing its
serialization reconstructs an equal participant:
`from_dict (to_dict p) = some p`, for all fields of the entity. -/
theorem claim_C6_roundtrip (p : Participant) : from_dict (to_dict p) = some p := by
  simp [from_dict, to_dict, getField, decStr, decObj, decOptStr_enc, decOptBool_enc,
    decOptArr_enc, decOptVec_enc, mkParticipant, Seq.seq, Option.bind]

/-! ### C5 -/

theorem pickDiffering_ne (choice : Option String) (sorted : List (String × ℕ))
    (opts : List String) (h : ∃ o ∈ opts, some o ≠ choice) :
    pickDiffering choice sorted opts ≠ choice := by
  unfold pickDiffering
  cases hfind : sorted.find? (fun oc => some oc.1 ≠ choice) with
  | some oc =>
    have hp := List.find?_some hfind
    simpa using hp
  | none =>
    cases hfind2 : opts.find? (fun opt => some opt ≠ choice) with
    | some opt =>
      have hp := List.find?_some hfind2
      simpa using hp
    | none =>
      obtain ⟨o, ho, hne⟩ := h
      have hall := List.find?_eq_none.mp hfind2 o ho
      simp at hall
      exact (hne hall).elim

/-- C5 counterexample: the `predefined` strategy does not guarantee a
differing option — with the configured mapping `{"A": "A"}` it returns the
participant's own choice `"A"` even though the alternative `"B"` is
configured. -/
theorem claim_C5_counterexample :
    predefined_opposition (votedParticipant "p_0001" "A") wps ["A", "B"]
        [("A", "A")] = (votedParticipant "p_0001" "A").initial_choice ∧
    ∃ o ∈ ["A", "B"], some o ≠ (votedParticipant "p_0001" "A").initial_choice :=
  ⟨rfl, ⟨"B", by decide, by decide⟩⟩

/-- C5 amended: the difference guarantee does not hold for every strategy
(`predefined` returns the mapped value even when it equals the participant's
own choice, see the counterexample); it does hold for `highest_voted`:
whenever some configured option differs from the participant's own
`initial_choice`, `highest_voted` returns an option different from that
choice, and it returns the participant's own choice only when every
configured option equals that choice. -/
theorem claim_C5_amended (participant : Participant)
    (all_participants : List Participant) (topic_options : List String) :
    ((∃ o ∈ topic_options, some o ≠ participant.initial_choice) →
      highest_voted participant all_participants topic_options ≠
        participant.initial_choice) ∧
    (highest_voted participant all_participants topic_options =
        participant.initial_choice →
      ∀ o ∈ topic_options, some o = participant.initial_choice) := by
  constructor
  · intro h
    simp only [highest_voted]
    exact pickDiffering_ne _ _ _ h
  · intro h o ho
    by_contra hne
    simp only [highest_voted] at h
    exact pickDiffering_ne _ _ _ ⟨o, ho, hne⟩ h

/-- Witness for C5: applied to a participant who voted `"A"` with options
`["A", "B"]`. -/
theorem claim_C5_amended_witness :
    highest_voted (votedParticipant "p_0001" "A") wps ["A", "B"] ≠
      (votedParticipant "p_0001" "A").initial_choice :=
  (claim_C5_amended (votedParticipant "p_0001" "A") wps ["A", "B"]).1
    ⟨"B", by decide, by decide⟩

/-! ### C1 -/

theorem div_guard_eq (c t : ℕ) :
    (if 0 < t then (c : ℚ) / (t : ℚ) else 0) = (c : ℚ) / (t : ℚ) := by
  rcases Nat.eq_zero_or_pos t with h | h
  · subst h; simp
  · simp [h]

/-- C1: the phase 2 check reports `continue = false` with a
`termination_option` iff the number of initial votes among status-complete
participants reaches the configured minimum sample size and some option's
share of those votes reaches the disagreement threshold; and whenever phase 2
reports `continue = false` inside the orchestrator, the run goes directly to
phase 9 with the early-termination flag, executing none of phases 3-8. -/
theorem claim_C1_phase2_iff_and_short_circuit (threshold : ℚ) (min_responses : ℕ)
    (ps ps0 : List Participant) (eff : ℕ → List Participant → List Participant)
    (start_phase : ℕ) :
    (((phase2_run threshold min_responses ps).continue_ = false ∧
        (phase2_run threshold min_responses ps).termination_option ≠ none) ↔
      specPhase2Termination threshold min_responses ps) ∧
    (start_phase ≤ 2 →
      (phase2_run threshold min_responses
          (if start_phase ≤ 1 then eff 1 ps0 else ps0)).continue_ = false →
      run_phases eff threshold min_responses start_phase ps0 =
        ⟨(if start_phase ≤ 1 then [1] else []) ++ [2, 9], true⟩ ∧
      ∀ k, 3 ≤ k → k ≤ 8 →
        k ∉ (run_phases eff threshold min_responses start_phase ps0).executed) := by
  constructor
  · simp only [phase2_run, specPhase2Termination]
    split
    next hlt =>
      constructor
      · rintro ⟨hc, -⟩
        cases hc
      · rintro ⟨hge, -⟩
        exact absurd hge (by omega)
    next hnlt =>
      split
      next oc heq =>
        constructor
        · intro _
          have hp := List.find?_some heq
          have hm := List.mem_of_find?_eq_some heq
          simp only [decide_eq_true_eq] at hp
          rw [div_guard_eq] at hp
          exact ⟨by omega, oc, hm, hp⟩
        · intro _
          exact ⟨rfl, by simp⟩
      next heq =>
        constructor
        · rintro ⟨hc, -⟩
          cases hc
        · rintro ⟨-, oc, hm, hth⟩
          have hno := List.find?_eq_none.mp heq oc hm
          simp only [decide_eq_true_eq] at hno
          rw [div_guard_eq] at hno
          exact absurd hth hno
  · intro h2 hcont
    by_cases h1 : start_phase ≤ 1
    · simp only [h1, if_true, reduceIte] at hcont ⊢
      have heq : run_phases eff threshold min_responses start_phase ps0 =
          ⟨[1, 2, 9], true⟩ := by
        unfold run_phases
        simp [h1, h2, hcont]
      refine ⟨heq, ?_⟩
      intro k h3 h8 hmem
      rw [heq] at hmem
      have : k = 1 ∨ k = 2 ∨ k = 9 := by simpa using hmem
      omega
    · simp only [h1, if_false, reduceIte] at hcont ⊢
      have heq : run_phases eff threshold min_responses start_phase ps0 =
          ⟨[2, 9], true⟩ := by
        unfold run_phases
        simp [h1, h2, hcont]
      refine ⟨heq, ?_⟩
      intro k h3 h8 hmem
      rw [heq] at hmem
      have : k = 2 ∨ k = 9 := by simpa using hmem
      omega

/-- Witness for C1: with threshold 1/2, minimum sample 2, and three completed
votes (A, A, B), option A's share 2/3 reaches the threshold, phase 2 reports
`continue = false` with a termination option, and a fresh run executes
exactly phases 1, 2, 9. -/
theorem claim_C1_witness :
    ((phase2_run (1/2) 2 wps).continue_ = false ∧
      (phase2_run (1/2) 2 wps).termination_option ≠ none) ∧
    run_phases (fun _ ps => ps) (1/2) 2 1 wps = ⟨[1, 2, 9], true⟩ ∧
    (∀ k, 3 ≤ k → k ≤ 8 →
      k ∉ (run_phases (fun _ ps => ps) (1/2) 2 1 wps).executed) := by
  have h := claim_C1_phase2_iff_and_short_circuit (1/2) 2 wps wps
    (fun _ ps => ps) 1
  have hv : countVotes (get_by_status wps "complete") = [("A", 2), ("B", 1)] := rfl
  have hspec : specPhase2Termination (1/2) 2 wps := by
    simp only [specPhase2Termination, hv]
    refine ⟨by norm_num [List.foldl], ("A", 2), by norm_num, ?_⟩
    norm_num [List.foldl]
  have hfalse := (h.1.mpr hspec).1
  have h2 := h.2 (by norm_num) hfalse
  refine ⟨h.1.mpr hspec, ?_, h2.2⟩
  have he := h2.1
  simpa using he

/-! ### C2 -/

theorem tail_phases_executed (eff : ℕ → List Participant → List Participant)
    (s : ℕ) (ps : List Participant) (ex : List ℕ) :
    (tail_phases eff s ps ex).executed =
      ex ++ List.filter (fun k => s ≤ k) [3, 4, 5, 6, 7, 8] ++ [9] := by
  unfold tail_phases
  by_cases h3 : s ≤ 3 <;> by_cases h4 : s ≤ 4 <;> by_cases h5 : s ≤ 5 <;>
    by_cases h6 : s ≤ 6 <;> by_cases h7 : s ≤ 7 <;> by_cases h8 : s ≤ 8 <;>
    first
      | (exfalso; omega)
      | simp [h3, h4, h5, h6, h7, h8, List.filter_cons, List.filter_nil]

theorem tail_phases_not_terminated (eff : ℕ → List Participant → List Participant)
    (s : ℕ) (ps : List Participant) (ex : List ℕ) :
    (tail_phases eff s ps ex).terminated_early = false := rfl

theorem run_phases_executed_eq (eff : ℕ → List Participant → List Participant)
    (th : ℚ) (mn : ℕ) (s : ℕ) (ps : List Participant) :
    (run_phases eff th mn s ps).executed =
      (if s ≤ 1 then [1] else []) ++
        (if s ≤ 2 then
          (if (phase2_run th mn (if s ≤ 1 then eff 1 ps else ps)).continue_ = false
           then [2, 9]
           else [2] ++ (List.filter (fun k => s ≤ k) [3, 4, 5, 6, 7, 8] ++ [9]))
         else List.filter (fun k => s ≤ k) [3, 4, 5, 6, 7, 8] ++ [9]) := by
  unfold run_phases
  by_cases h1 : s ≤ 1 <;> by_cases h2 : s ≤ 2
  · cases hc : (phase2_run th mn (eff 1 ps)).continue_ <;>
      simp [h1, h2, hc, tail_phases_executed]
  · exact absurd (by omega : s ≤ 2) h2
  · cases hc : (phase2_run th mn ps).continue_ <;>
      simp [h1, h2, hc, tail_phases_executed]
  · simp [h1, h2, tail_phases_executed]

theorem run_phases_executed_mem (eff : ℕ → List Participant → List Participant)
    (th : ℚ) (mn : ℕ) (s : ℕ) (ps : List Participant) :
    ∀ j ∈ (run_phases eff th mn s ps).executed, j = 9 ∨ s ≤ j := by
  intro j hj
  rw [run_phases_executed_eq] at hj
  rcases List.mem_append.mp hj with h' | h'
  · by_cases h1 : s ≤ 1
    · rw [if_pos h1] at h'
      rw [List.mem_singleton] at h'
      omega
    · rw [if_neg h1] at h'
      exact absurd h' (List.not_mem_nil j)
  · by_cases h2 : s ≤ 2
    · rw [if_pos h2] at h'
      by_cases hc : (phase2_run th mn (if s ≤ 1 then eff 1 ps else ps)).continue_
          = false
      · rw [if_pos hc] at h'
        rcases List.mem_cons.mp h' with h | h
        · omega
        · rw [List.mem_singleton] at h
          omega
      · rw [if_neg hc] at h'
        rcases List.mem_cons.mp h' with h | h
        · omega
        · rcases List.mem_append.mp h with h | h
          · exact absurd h (List.not_mem_nil j)
          · rcases List.mem_append.mp h with h | h
            · right
              have hf := (List.mem_filter.mp h).2
              simpa using hf
            · left
              simpa using h
    · rw [if_neg h2] at h'
      rcases List.mem_append.mp h' with h | h
      · right
        have hf := (List.mem_filter.mp h).2
        simpa using hf
      · left
        simpa using h

theorem run_phases_executed_head (eff : ℕ → List Participant → List Participant)
    (th : ℚ) (mn : ℕ) (s : ℕ) (ps : List Participant)
    (hs1 : 1 ≤ s) (hs9 : s ≤ 9) :
    (run_phases eff th mn s ps).executed.head? = some s := by
  rw [run_phases_executed_eq]
  interval_cases s <;> simp <;> split <;> simp

/-- C2 counterexample: a checkpoint with `last_completed_phase = 9` that does
not record early termination exists (it is written after a full run); on
resume the unconditional save phase runs again, so phase 9 — which is among
phases 1 through k for k = 9 — is re-executed, refuting "no phase numbered 1
through k is re-executed" as stated. -/
theorem claim_C2_counterexample :
    run_experiment (fun _ ps => ps) (1/2) 50 true (some ⟨9, false⟩) (some []) []
      = .ok ⟨[9], false⟩ ∧
    ¬(∀ j, 1 ≤ j → j ≤ 9 →
        j ∉ (RunResult.mk [9] false).executed) := by
  constructor
  · rfl
  · intro hall
    exact hall 9 (by omega) (by omega) (List.mem_singleton.mpr rfl)

/-- C2 amended: resuming on a checkpoint with `last_completed_phase = k` that
does not record early termination re-enters the loop at phase `k + 1`
(for k ≤ 8), re-executes no phase numbered 1 through k, and every executed
phase is either ≥ k + 1 or the unconditional save phase 9; if the checkpoint
records early termination, resume executes no phase at all and only reports
the terminal state. -/
theorem claim_C2_amended (eff : ℕ → List Participant → List Participant)
    (th : ℚ) (mn : ℕ) (cp : Checkpoint) (ps fresh : List Participant) :
    (cp.terminated_early = true →
      run_experiment eff th mn true (some cp) (some ps) fresh = .ok ⟨[], true⟩) ∧
    (cp.terminated_early = false → cp.last_completed_phase ≤ 8 →
      ∃ r, run_experiment eff th mn true (some cp) (some ps) fresh = .ok r ∧
        r.executed.head? = some (cp.last_completed_phase + 1) ∧
        (∀ j, 1 ≤ j → j ≤ cp.last_completed_phase → j ∉ r.executed) ∧
        (∀ j ∈ r.executed, j = 9 ∨ cp.last_completed_phase + 1 ≤ j)) := by
  constructor
  · intro hterm
    simp [run_experiment, hterm]
  · intro hterm hk
    refine ⟨run_phases eff th mn (cp.last_completed_phase + 1) ps, ?_, ?_, ?_, ?_⟩
    · simp [run_experiment, hterm]
    · exact run_phases_executed_head eff th mn _ ps (by omega) (by omega)
    · intro j hj1 hjk hmem
      rcases run_phases_executed_mem eff th mn _ ps j hmem with h | h <;> omega
    · exact run_phases_executed_mem eff th mn _ ps

/-- Witness for C2: resuming on checkpoint `(3, not terminated)` re-enters at
phase 4 and executes no phase 1-3; and resuming on a terminated checkpoint
executes nothing. -/
theorem claim_C2_amended_witness :
    (run_experiment (fun _ ps => ps) (1/2) 50 true (some ⟨4, true⟩) (some []) []
      = .ok ⟨[], true⟩) ∧
    ∃ r, run_experiment (fun _ ps => ps) (1/2) 50 true (some ⟨3, false⟩)
          (some []) [] = .ok r ∧
      r.executed.head? = some ((Checkpoint.mk 3 false).last_completed_phase + 1) ∧
      (∀ j, 1 ≤ j → j ≤ (Checkpoint.mk 3 false).last_completed_phase →
        j ∉ r.executed) ∧
      (∀ j ∈ r.executed,
        j = 9 ∨ (Checkpoint.mk 3 false).last_completed_phase + 1 ≤ j) :=
  ⟨(claim_C2_amended (fun _ ps => ps) (1/2) 50 ⟨4, true⟩ [] []).1 rfl,
   (claim_C2_amended (fun _ ps => ps) (1/2) 50 ⟨3, false⟩ [] []).2 rfl
     (by decide)⟩

/-! ### C3 and C4

The contracts of the external clusterer and scorer, as documented by
`sklearn`: `fit_predict` with `n_clusters = k` on `n ≥ k` samples returns one
label per sample, each in `[0, k)`, with every one of the `k` labels present,
and does not raise; the mean silhouette score lies in `(-1, 1]` (each
per-sample coefficient is in `[-1, 1]`, and a mean of exactly -1 would
require every sample to coincide with a whole other cluster while differing
from its own, which is impossible for all samples simultaneously). -/

/-- Documented behaviour of `fit_predict` on a successful call. -/
def FitContract (env : ClusterEnv) : Prop :=
  ∀ alg k data labels, alg ∈ VALID_ALGORITHMS → 1 ≤ k → k ≤ data.length →
    env.fitPredict alg k data = some labels →
    labels.length = data.length ∧ (∀ x ∈ labels, x < k) ∧ (∀ j, j < k → j ∈ labels)

/-- `fit_predict` does not raise when `1 ≤ k ≤ n`. -/
def FitTotal (env : ClusterEnv) : Prop :=
  ∀ alg k data, alg ∈ VALID_ALGORITHMS → 1 ≤ k → k ≤ data.length →
    (env.fitPredict alg k data).isSome = true

theorem attemptK_fit (env : ClusterEnv) (alg : String) (embs : List (List ℚ))
    (k : ℕ) (ls : List ℕ × ℚ) (h : attemptK env alg embs k = some ls) :
    env.fitPredict alg k embs = some ls.1 := by
  cases hf : env.fitPredict alg k embs with
  | none => simp [attemptK, hf] at h
  | some labels =>
    cases hs : env.silhouette embs labels with
    | none => simp [attemptK, hf, hs] at h
    | some score =>
      simp only [attemptK, hf, hs] at h
      injection h with h
      subst h
      rfl

theorem foldl_kStep_cases (env : ClusterEnv) (alg : String)
    (embs : List (List ℚ)) :
    ∀ (ks : List ℕ) (init : ℕ × ℚ × List ℕ),
      ks.foldl (kStep env alg embs) init = init ∨
      ∃ k ∈ ks, ∃ ls, attemptK env alg embs k = some ls ∧
        ks.foldl (kStep env alg embs) init = (k, ls.2, ls.1) := by
  intro ks
  induction ks with
  | nil => intro init; left; rfl
  | cons k rest ih =>
    intro init
    rw [List.foldl_cons]
    rcases ih (kStep env alg embs init k) with h | ⟨k', hk', ls, hat, heq⟩
    · rw [h]
      cases hat : attemptK env alg embs k with
      | none => left; simp [kStep, hat]
      | some ls =>
        by_cases hlt : init.2.1 < ls.2
        · right
          exact ⟨k, List.mem_cons_self k rest, ls, hat, by simp [kStep, hat, hlt]⟩
        · left
          simp [kStep, hat, hlt]
    · right
      exact ⟨k', List.mem_cons_of_mem k hk', ls, hat, heq⟩

/-- C3 counterexample: with `max_clusters = 1` and two samples, the `n = 2`
branch forces a 2-clustering regardless of `K_max`, so the chosen cluster
count 2 exceeds `min(K_max, n) = 1`, refuting "chosen_k ≤ min(K_max, n) for
every K_max" as stated.  The toy clusterer returns labels `i % k`, exactly
the contract-conforming labelling sklearn produces on two distinct points. -/
def toyFit : String → ℕ → List (List ℚ) → Option (List ℕ) :=
  fun _ k data => some ((List.range data.length).map (fun i => i % k))

/-- A toy scorer that always returns 0 (a legal silhouette value). -/
def toySil : List (List ℚ) → List ℕ → Option ℚ := fun _ _ => some 0

/-- The toy collaborators bundled. -/
def toyEnv : ClusterEnv := ⟨toyFit, toySil⟩

theorem claim_C3_counterexample :
    cluster_embeddingsWithK toyEnv [[(0 : ℚ)], [1]] 1 "kmeans" 1 =
      .ok (2, [0, 1]) ∧
    ¬((2 : ℕ) ≤ min 1 2) := ⟨rfl, by decide⟩

theorem toyEnv_fit_contract : FitContract toyEnv := by
  intro alg k data labels _ h1 hk heq
  simp only [toyEnv, toyFit] at heq
  injection heq with heq
  subst heq
  refine ⟨by simp, ?_, ?_⟩
  · intro x hx
    simp only [List.mem_map, List.mem_range] at hx
    obtain ⟨i, hi, rfl⟩ := hx
    exact Nat.mod_lt i (by omega)
  · intro j hj
    simp only [List.mem_map, List.mem_range]
    exact ⟨j, by omega, Nat.mod_eq_of_lt hj⟩

theorem toyEnv_fit_total : FitTotal toyEnv := by
  intro alg k data _ _ _
  simp [toyEnv, toyFit]

/-- C3 amended: under the sklearn contract, and provided `K_max ≥ 2` (the
`n = 2` branch requests 2 clusters unconditionally, so the bound fails for
`K_max < 2`, see the counterexample): `cluster_embeddings` returns exactly
`n` labels — `[]` for `n = 0`, `[0]` for `n = 1`, a labelling with exactly 2
clusters for `n = 2` — and for `n ≥ 2` every label lies in `[0, chosen_k)`
with `chosen_k ≤ min(K_max, n)`. -/
theorem claim_C3_amended (env : ClusterEnv) (hfit : FitContract env)
    (htot : FitTotal env) (embeddings : List (List ℚ)) (max_clusters : ℕ)
    (algorithm : String) (min_size : ℕ)
    (halg : algorithm ∈ VALID_ALGORITHMS) (hmc : 2 ≤ max_clusters) :
    (embeddings.length = 0 →
      cluster_embeddingsWithK env embeddings max_clusters algorithm min_size =
        .ok (0, [])) ∧
    (embeddings.length = 1 →
      cluster_embeddingsWithK env embeddings max_clusters algorithm min_size =
        .ok (1, [0])) ∧
    (2 ≤ embeddings.length →
      ∃ k labels,
        cluster_embeddingsWithK env embeddings max_clusters algorithm min_size =
          .ok (k, labels) ∧
        labels.length = embeddings.length ∧
        k ≤ min max_clusters embeddings.length ∧
        (∀ x ∈ labels, x < k) ∧
        (embeddings.length = 2 → k = 2 ∧ 0 ∈ labels ∧ 1 ∈ labels)) := by
  have hval : ¬ (algorithm ∉ VALID_ALGORITHMS) := not_not_intro halg
  refine ⟨?_, ?_, ?_⟩
  · intro h0
    simp only [cluster_embeddingsWithK]
    rw [if_neg hval, if_pos h0]
  · intro h1
    simp only [cluster_embeddingsWithK]
    rw [if_neg hval, if_neg (by omega), if_pos h1]
  · intro h2
    by_cases hn2 : embeddings.length = 2
    · have hfp := htot algorithm 2 embeddings halg (by omega) (by omega)
      rw [Option.isSome_iff_exists] at hfp
      obtain ⟨labels, hl⟩ := hfp
      obtain ⟨hlen, hlab, hsurj⟩ :=
        hfit algorithm 2 embeddings labels halg (by omega) (by omega) hl
      refine ⟨2, labels, ?_, by omega, by omega, hlab,
        fun _ => ⟨rfl, hsurj 0 (by omega), hsurj 1 (by omega)⟩⟩
      simp only [cluster_embeddingsWithK]
      rw [if_neg hval, if_neg (by omega), if_neg (by omega), if_pos hn2, hl]
    · have hn3 : 3 ≤ embeddings.length := by omega
      have hres : cluster_embeddingsWithK env embeddings max_clusters algorithm
          min_size =
          .ok (((List.range' 2 (min max_clusters embeddings.length - 1)).foldl
              (kStep env algorithm embeddings)
              (1, -1, List.replicate embeddings.length 0)).1,
            ((List.range' 2 (min max_clusters embeddings.length - 1)).foldl
              (kStep env algorithm embeddings)
              (1, -1, List.replicate embeddings.length 0)).2.2) := by
        simp only [cluster_embeddingsWithK]
        rw [if_neg hval, if_neg (by omega), if_neg (by omega), if_neg hn2]
      rcases foldl_kStep_cases env algorithm embeddings
          (List.range' 2 (min max_clusters embeddings.length - 1))
          (1, -1, List.replicate embeddings.length 0) with h | ⟨k, hk, ls, hat, heq⟩
      · rw [h] at hres
        refine ⟨1, List.replicate embeddings.length 0, hres, by simp, by omega,
          ?_, by omega⟩
        intro x hx
        rw [List.eq_of_mem_replicate hx]
        omega
      · rw [heq] at hres
        rw [List.mem_range'_1] at hk
        have hkmin : k ≤ min max_clusters embeddings.length := by omega
        have hfp := attemptK_fit env algorithm embeddings k ls hat
        obtain ⟨hlen, hlab, -⟩ :=
          hfit algorithm k embeddings ls.1 halg (by omega) (by omega) hfp
        exact ⟨k, ls.1, hres, hlen, hkmin, hlab, by omega⟩

/-- Witness for C3: the amended statement applied to the toy contract-obeying
collaborators on three one-dimensional points with `K_max = 2`. -/
theorem claim_C3_amended_witness :
    ∃ k labels,
      cluster_embeddingsWithK toyEnv [[(0 : ℚ)], [1], [2]] 2 "kmeans" 1 =
        .ok (k, labels) ∧
      labels.length = ([[(0 : ℚ)], [1], [2]] : List (List ℚ)).length ∧
      k ≤ min 2 ([[(0 : ℚ)], [1], [2]] : List (List ℚ)).length ∧
      (∀ x ∈ labels, x < k) ∧
      (([[(0 : ℚ)], [1], [2]] : List (List ℚ)).length = 2 →
        k = 2 ∧ 0 ∈ labels ∧ 1 ∈ labels) :=
  (claim_C3_amended toyEnv toyEnv_fit_contract toyEnv_fit_total
    [[0], [1], [2]] 2 "kmeans" 1 (by decide) (by omega)).2.2 (by decide)

/-- The selection loop of lines 94-118 restricted to the successful
candidates: fold with strict improvement (`score > best_score`). -/
def bestOf (cands : List (ℕ × List ℕ × ℚ)) (init : ℕ × ℚ × List ℕ) :
    ℕ × ℚ × List ℕ :=
  cands.foldl (fun best c => if best.2.1 < c.2.2 then (c.1, c.2.2, c.2.1) else best)
    init

theorem foldl_kStep_eq_bestOf (env : ClusterEnv) (alg : String)
    (embs : List (List ℚ)) :
    ∀ (ks : List ℕ) (init : ℕ × ℚ × List ℕ),
      ks.foldl (kStep env alg embs) init =
        bestOf (ks.filterMap (fun k =>
          (attemptK env alg embs k).map (fun ls => (k, ls.1, ls.2)))) init := by
  intro ks
  induction ks with
  | nil => intro init; rfl
  | cons k rest ih =>
    intro init
    rw [List.foldl_cons, List.filterMap_cons]
    cases hat : attemptK env alg embs k with
    | none =>
      simp only [Option.map_none']
      rw [ih]
      have : kStep env alg embs init k = init := by simp [kStep, hat]
      rw [this]
    | some ls =>
      simp only [Option.map_some']
      have hstep : kStep env alg embs init k =
          if init.2.1 < ls.2 then (k, ls.2, ls.1) else init := by
        simp [kStep, hat]
      rw [ih, hstep]
      rfl

theorem bestOf_spec :
    ∀ (cands : List (ℕ × List ℕ × ℚ)) (init : ℕ × ℚ × List ℕ),
      (bestOf cands init = init ∧ ∀ e ∈ cands, e.2.2 ≤ init.2.1) ∨
      (∃ i, ∃ hi : i < cands.length,
        bestOf cands init = (cands[i].1, cands[i].2.2, cands[i].2.1) ∧
        init.2.1 < cands[i].2.2 ∧
        (∀ e ∈ cands, e.2.2 ≤ cands[i].2.2) ∧
        (∀ e ∈ cands.take i, e.2.2 < cands[i].2.2)) := by
  intro cands
  induction cands with
  | nil => intro init; left; exact ⟨rfl, by simp⟩
  | cons c rest ih =>
    intro init
    have hstep : bestOf (c :: rest) init =
        bestOf rest (if init.2.1 < c.2.2 then (c.1, c.2.2, c.2.1) else init) := rfl
    by_cases hlt : init.2.1 < c.2.2
    · rw [hstep, if_pos hlt]
      rcases ih (c.1, c.2.2, c.2.1) with ⟨heq, hall⟩ | ⟨i, hi, heq, hgt, hmax, hfirst⟩
      · right
        refine ⟨0, by simp, by simpa using heq, by simpa using hlt, ?_, by simp⟩
        intro e he
        rcases List.mem_cons.mp he with rfl | he
        · simp
        · simpa using hall e he
      · right
        refine ⟨i + 1, by simpa using Nat.succ_lt_succ hi, by simpa using heq,
          ?_, ?_, ?_⟩
        · simp only [List.getElem_cons_succ]
          exact lt_trans hlt hgt
        · intro e he
          rcases List.mem_cons.mp he with rfl | he
          · simp only [List.getElem_cons_succ]
            exact le_of_lt hgt
          · simpa using hmax e he
        · intro e he
          rw [List.take_succ_cons] at he
          rcases List.mem_cons.mp he with rfl | he
          · simp only [List.getElem_cons_succ]
            exact hgt
          · simpa using hfirst e he
    · rw [hstep, if_neg hlt]
      rcases ih init with ⟨heq, hall⟩ | ⟨i, hi, heq, hgt, hmax, hfirst⟩
      · left
        refine ⟨heq, ?_⟩
        intro e he
        rcases List.mem_cons.mp he with rfl | he
        · exact le_of_not_lt hlt
        · exact hall e he
      · right
        refine ⟨i + 1, by simpa using Nat.succ_lt_succ hi, by simpa using heq,
          ?_, ?_, ?_⟩
        · simp only [List.getElem_cons_succ]
          exact hgt
        · intro e he
          rcases List.mem_cons.mp he with rfl | he
          · simp only [List.getElem_cons_succ]
            exact le_of_lt (lt_of_le_of_lt (le_of_not_lt hlt) hgt)
          · simpa using hmax e he
        · intro e he
          rw [List.take_succ_cons] at he
          rcases List.mem_cons.mp he with rfl | he
          · simp only [List.getElem_cons_succ]
            exact lt_of_le_of_lt (le_of_not_lt hlt) hgt
          · simpa using hfirst e he

/-- The successful `(k, labels, score)` candidate evaluations of
`cluster_embeddings` in ascending `k` order, with `max_k = min(K_max, n)` as
in the source. -/
def clusterCandidates (env : ClusterEnv) (embeddings : List (List ℚ))
    (max_clusters : ℕ) (alg : String) : List (ℕ × List ℕ × ℚ) :=
  candidateList env alg embeddings (min max_clusters embeddings.length)

/-- C4: for `n ≥ 3` samples and a valid algorithm, under the silhouette range
contract (every successful score exceeds -1), the loop returns the labelling
of the candidate `k` with the strictly highest score — the first such `k`
(lowest, since candidates are in ascending `k` order) on ties — skipping the
candidates whose clustering or scoring raised; when no candidate succeeds,
the result is the single-cluster labelling, all labels 0. -/
theorem claim_C4_best_silhouette (env : ClusterEnv) (embeddings : List (List ℚ))
    (max_clusters : ℕ) (alg : String) (min_size : ℕ)
    (halg : alg ∈ VALID_ALGORITHMS) (hn : 3 ≤ embeddings.length)
    (hscore : ∀ e ∈ clusterCandidates env embeddings max_clusters alg,
      -1 < e.2.2) :
    (clusterCandidates env embeddings max_clusters alg = [] →
      cluster_embeddingsWithK env embeddings max_clusters alg min_size =
        .ok (1, List.replicate embeddings.length 0)) ∧
    (clusterCandidates env embeddings max_clusters alg ≠ [] →
      ∃ i, ∃ hi : i < (clusterCandidates env embeddings max_clusters alg).length,
        cluster_embeddingsWithK env embeddings max_clusters alg min_size =
          .ok ((clusterCandidates env embeddings max_clusters alg)[i].1,
            (clusterCandidates env embeddings max_clusters alg)[i].2.1) ∧
        (∀ e ∈ clusterCandidates env embeddings max_clusters alg,
          e.2.2 ≤ (clusterCandidates env embeddings max_clusters alg)[i].2.2) ∧
        (∀ e ∈ (clusterCandidates env embeddings max_clusters alg).take i,
          e.2.2 < (clusterCandidates env embeddings max_clusters alg)[i].2.2)) := by
  have hval : ¬ (alg ∉ VALID_ALGORITHMS) := not_not_intro halg
  have hres : cluster_embeddingsWithK env embeddings max_clusters alg min_size =
      .ok ((bestOf (clusterCandidates env embeddings max_clusters alg)
          (1, -1, List.replicate embeddings.length 0)).1,
        (bestOf (clusterCandidates env embeddings max_clusters alg)
          (1, -1, List.replicate embeddings.length 0)).2.2) := by
    simp only [cluster_embeddingsWithK]
    rw [if_neg hval, if_neg (by omega), if_neg (by omega), if_neg (by omega),
      foldl_kStep_eq_bestOf]
    rfl
  rcases bestOf_spec (clusterCandidates env embeddings max_clusters alg)
      (1, -1, List.replicate embeddings.length 0) with
    ⟨heq, hall⟩ | ⟨i, hi, heq, -, hmax, hfirst⟩
  · constructor
    · intro _
      rw [heq] at hres
      exact hres
    · intro hne
      obtain ⟨e, he⟩ := List.exists_mem_of_ne_nil _ hne
      exact absurd (hall e he) (by simpa using hscore e he)
  · constructor
    · intro hnil
      rw [hnil] at hi
      exact absurd hi (by simp)
    · intro _
      rw [heq] at hres
      exact ⟨i, hi, hres, hmax, hfirst⟩

/-- Witness for C4: the toy collaborators on three points with `K_max = 3`
produce candidates for k = 2 and k = 3 and the loop keeps the first maximal
score. -/
theorem claim_C4_witness :
    ∃ i, ∃ hi : i < (clusterCandidates toyEnv [[(0 : ℚ)], [1], [2]] 3 "kmeans").length,
      cluster_embeddingsWithK toyEnv [[(0 : ℚ)], [1], [2]] 3 "kmeans" 1 =
        .ok ((clusterCandidates toyEnv [[(0 : ℚ)], [1], [2]] 3 "kmeans")[i].1,
          (clusterCandidates toyEnv [[(0 : ℚ)], [1], [2]] 3 "kmeans")[i].2.1) ∧
      (∀ e ∈ clusterCandidates toyEnv [[(0 : ℚ)], [1], [2]] 3 "kmeans",
        e.2.2 ≤ (clusterCandidates toyEnv [[(0 : ℚ)], [1], [2]] 3 "kmeans")[i].2.2) ∧
      (∀ e ∈ (clusterCandidates toyEnv [[(0 : ℚ)], [1], [2]] 3 "kmeans").take i,
        e.2.2 < (clusterCandidates toyEnv [[(0 : ℚ)], [1], [2]] 3 "kmeans")[i].2.2) :=
  (claim_C4_best_silhouette toyEnv [[0], [1], [2]] 3 "kmeans" 1 (by decide)
    (by decide) (by decide)).2 (by decide)

/-! ### C8 -/

/-- All member ids of a grouping, in group order. -/
def membersJoin : List (ℕ × List String) → List String
  | [] => []
  | lm :: rest => lm.2 ++ membersJoin rest

theorem membersJoin_eq_join_map (cm : List (ℕ × List String)) :
    membersJoin cm = (cm.map (fun lm => lm.2)).join := by
  induction cm with
  | nil => rfl
  | cons lm rest ih => simp [membersJoin, ih]

theorem mem_membersJoin (cm : List (ℕ × List String)) (pid : String) :
    pid ∈ membersJoin cm ↔ ∃ lm ∈ cm, pid ∈ lm.2 := by
  induction cm with
  | nil => simp [membersJoin]
  | cons lm rest ih => simp [membersJoin, ih]

theorem addMember_join_perm (cm : List (ℕ × List String)) (l : ℕ) (pid : String) :
    (membersJoin (addMember cm l pid)).Perm (membersJoin cm ++ [pid]) := by
  induction cm with
  | nil => simp [addMember, membersJoin]
  | cons hd rest ih =>
    obtain ⟨l', ms⟩ := hd
    by_cases h : l' = l
    · simp only [addMember, if_pos h, membersJoin]
      rw [List.append_assoc, List.append_assoc]
      exact List.Perm.append_left ms List.perm_append_comm
    · simp only [addMember, if_neg h, membersJoin]
      rw [List.append_assoc]
      exact List.Perm.append_left ms ih

theorem foldl_addMember_perm :
    ∀ (pairs : List (ℕ × String)) (cm : List (ℕ × List String)),
      (membersJoin (pairs.foldl (fun acc lp => addMember acc lp.1 lp.2) cm)).Perm
        (membersJoin cm ++ pairs.map (fun lp => lp.2)) := by
  intro pairs
  induction pairs with
  | nil => intro cm; simp
  | cons p rest ih =>
    intro cm
    rw [List.foldl_cons]
    refine (ih (addMember cm p.1 p.2)).trans ?_
    refine (List.Perm.append_right _ (addMember_join_perm cm p.1 p.2)).trans ?_
    rw [List.append_assoc]
    exact List.Perm.append_left _ (by simp)

theorem get_cluster_members_perm (labels : List ℕ) (ids : List String)
    (h : labels.length = ids.length) :
    (membersJoin (get_cluster_members labels ids)).Perm ids := by
  have hp := foldl_addMember_perm (labels.zip ids) []
  have hmap : (labels.zip ids).map (fun lp => lp.2) = ids := by
    have : (fun lp : ℕ × String => lp.2) = Prod.snd := rfl
    rw [this]
    exact List.map_snd_zip labels ids (by omega)
  rw [hmap] at hp
  simpa [get_cluster_members, membersJoin] using hp

theorem cluster_members_cover (labels : List ℕ) (ids : List String)
    (h : labels.length = ids.length) (pid : String) (hpid : pid ∈ ids) :
    ∃ lm ∈ get_cluster_members labels ids, pid ∈ lm.2 :=
  (mem_membersJoin _ pid).mp
    ((get_cluster_members_perm labels ids h).mem_iff.mpr hpid)

theorem assign_cluster_ids_spec (option : String) :
    ∀ (cm : List (ℕ × List String)) (ps : List Participant),
      ∀ p' ∈ assign_cluster_ids option cm ps,
        ∃ p ∈ ps, p'.participant_id = p.participant_id ∧
          ((∃ lm ∈ cm, p.participant_id ∈ lm.2 ∧
            p'.cluster_id = some (clusterIdFor option lm.1)) ∨
           (p' = p ∧ ∀ lm ∈ cm, p.participant_id ∉ lm.2)) := by
  intro cm
  induction cm with
  | nil =>
    intro ps p' hp'
    exact ⟨p', hp', rfl, Or.inr ⟨rfl, by simp⟩⟩
  | cons lm rest ih =>
    intro ps p' hp'
    have hstep : assign_cluster_ids option (lm :: rest) ps =
        assign_cluster_ids option rest (ps.map (fun p =>
          if p.participant_id ∈ lm.2 then
            { p with cluster_id := some (clusterIdFor option lm.1) }
          else p)) := rfl
    rw [hstep] at hp'
    obtain ⟨q, hq, hqid, hrest⟩ := ih _ p' hp'
    obtain ⟨p, hp, hqdef⟩ := List.mem_map.mp hq
    by_cases hmem : p.participant_id ∈ lm.2
    · rw [if_pos hmem] at hqdef
      have hqpid : q.participant_id = p.participant_id := by rw [← hqdef]
      rcases hrest with ⟨lm', hlm', hqmem, hcid⟩ | ⟨hpq, -⟩
      · refine ⟨p, hp, by rw [hqid, hqpid], Or.inl ⟨lm', List.mem_cons_of_mem _ hlm',
          ?_, hcid⟩⟩
        rw [← hqpid]
        exact hqmem
      · refine ⟨p, hp, by rw [hqid, hqpid],
          Or.inl ⟨lm, List.mem_cons_self _ _, hmem, ?_⟩⟩
        rw [hpq, ← hqdef]
    · rw [if_neg hmem] at hqdef
      subst hqdef
      rcases hrest with ⟨lm', hlm', hqmem, hcid⟩ | ⟨hpq, hnone⟩
      · exact ⟨p, hp, hqid, Or.inl ⟨lm', List.mem_cons_of_mem _ hlm', hqmem, hcid⟩⟩
      · refine ⟨p, hp, hqid, Or.inr ⟨hpq, ?_⟩⟩
        intro lm'' hlm''
        rcases List.mem_cons.mp hlm'' with rfl | hlm''
        · exact hmem
        · exact hnone lm'' hlm''

/-- C8: for equal-length label and id lists, `get_cluster_members` returns
groups whose members taken together are exactly the input ids — a
permutation, so no duplicate and no omission; and after the phase 4
clustering step, every participant with an assigned cluster id appears in
`member_ids` of a `ClusterInfo` carrying exactly that id, and the option's
clusters partition the option's participants (their member lists joined are a
duplicate-free permutation of the participant ids). -/
theorem claim_C8_cluster_partition (labels : List ℕ) (ids : List String)
    (plabels : List ℕ) (option : String)
    (descFn : List (Option String) → String → Option String)
    (ps : List Participant)
    (hlen : labels.length = ids.length)
    (hplen : plabels.length = ps.length)
    (hnodup : (ps.map (fun p => p.participant_id)).Nodup) :
    (membersJoin (get_cluster_members labels ids)).Perm ids ∧
    (∀ p' ∈ (phase4_cluster_option option descFn ps plabels).1,
      ∃ ci ∈ (phase4_cluster_option option descFn ps plabels).2,
        p'.cluster_id = some ci.cluster_id ∧
        p'.participant_id ∈ ci.member_ids) ∧
    ((((phase4_cluster_option option descFn ps plabels).2).map
        (fun ci => ci.member_ids)).join).Perm
      (ps.map (fun p => p.participant_id)) ∧
    ((((phase4_cluster_option option descFn ps plabels).2).map
        (fun ci => ci.member_ids)).join).Nodup := by
  have hplen' : plabels.length = (ps.map (fun p => p.participant_id)).length := by
    simpa using hplen
  have hinfos : ((build_cluster_infos option descFn
        (get_cluster_members plabels (ps.map (fun p => p.participant_id))) ps).map
      (fun ci => ci.member_ids)) =
      (get_cluster_members plabels (ps.map (fun p => p.participant_id))).map
        (fun lm => lm.2) := by
    simp [build_cluster_infos, List.map_map, Function.comp]
  have hjoin : ((build_cluster_infos option descFn
        (get_cluster_members plabels (ps.map (fun p => p.participant_id))) ps).map
      (fun ci => ci.member_ids)).join =
      membersJoin (get_cluster_members plabels (ps.map (fun p => p.participant_id))) := by
    rw [hinfos, membersJoin_eq_join_map]
  have hperm2 := get_cluster_members_perm plabels
    (ps.map (fun p => p.participant_id)) hplen'
  refine ⟨get_cluster_members_perm labels ids hlen, ?_, ?_, ?_⟩
  · intro p' hp'
    obtain ⟨p, hp, hpid, hcase⟩ := assign_cluster_ids_spec option _ ps p' hp'
    rcases hcase with ⟨lm, hlm, hpmem, hcid⟩ | ⟨-, hnone⟩
    · obtain ⟨ci, hciMem, hciId, hciMembers⟩ :
          ∃ ci ∈ build_cluster_infos option descFn
            (get_cluster_members plabels (ps.map (fun p => p.participant_id))) ps,
            ci.cluster_id = clusterIdFor option lm.1 ∧ ci.member_ids = lm.2 :=
        ⟨_, List.mem_map.mpr ⟨lm, hlm, rfl⟩, rfl, rfl⟩
      refine ⟨ci, hciMem, ?_, ?_⟩
      · rw [hcid, hciId]
      · rw [hciMembers, hpid]
        exact hpmem
    · exfalso
      have hmem : p.participant_id ∈ ps.map (fun p => p.participant_id) :=
        List.mem_map.mpr ⟨p, hp, rfl⟩
      obtain ⟨lm, hlm, hpmem⟩ := cluster_members_cover plabels
        (ps.map (fun p => p.participant_id)) hplen' p.participant_id hmem
      exact hnone lm hlm hpmem
  · rw [show (phase4_cluster_option option descFn ps plabels).2 =
      build_cluster_infos option descFn
        (get_cluster_members plabels (ps.map (fun p => p.participant_id))) ps from rfl]
    rw [hjoin]
    exact hperm2
  · rw [show (phase4_cluster_option option descFn ps plabels).2 =
      build_cluster_infos option descFn
        (get_cluster_members plabels (ps.map (fun p => p.participant_id))) ps from rfl]
    rw [hjoin]
    exact (hperm2.nodup_iff).mpr hnodup

/-- Witness for C8: three ids grouped by labels `[0, 1, 0]`, and the phase 4
step on two participants with labels `[0, 0]`. -/
theorem claim_C8_cluster_partition_witness :
    (membersJoin (get_cluster_members [0, 1, 0] ["a", "b", "c"])).Perm
      ["a", "b", "c"] ∧
    (∀ p' ∈ (phase4_cluster_option "A" (fun _ _ => none) wps2 [0, 0]).1,
      ∃ ci ∈ (phase4_cluster_option "A" (fun _ _ => none) wps2 [0, 0]).2,
        p'.cluster_id = some ci.cluster_id ∧
        p'.participant_id ∈ ci.member_ids) ∧
    ((((phase4_cluster_option "A" (fun _ _ => none) wps2 [0, 0]).2).map
        (fun ci => ci.member_ids)).join).Perm
      (wps2.map (fun p => p.participant_id)) ∧
    ((((phase4_cluster_option "A" (fun _ _ => none) wps2 [0, 0]).2).map
        (fun ci => ci.member_ids)).join).Nodup :=
  claim_C8_cluster_partition [0, 1, 0] ["a", "b", "c"] [0, 0] "A"
    (fun _ _ => none) wps2 (by decide) (by decide) (by decide)

/-! ### C9 -/

theorem dotR_nonneg (v : List ℝ) : 0 ≤ dotR v v := by
  induction v with
  | nil => simp [dotR]
  | cons x xs ih =>
    simp only [dotR]
    have hx := mul_self_nonneg x
    linarith

theorem dotR_scale_right (c : ℝ) (u v : List ℝ) :
    dotR u (scaleVec c v) = c * dotR u v := by
  induction u generalizing v with
  | nil => simp [dotR]
  | cons x xs ih =>
    cases v with
    | nil => simp [dotR, scaleVec]
    | cons y ys =>
      simp only [scaleVec, List.map_cons, dotR]
      rw [show ys.map (fun z => c * z) = scaleVec c ys from rfl, ih]
      ring

theorem dotR_scale_self (c : ℝ) (v : List ℝ) :
    dotR (scaleVec c v) (scaleVec c v) = c ^ 2 * dotR v v := by
  induction v with
  | nil => simp [dotR, scaleVec]
  | cons y ys ih =>
    simp only [scaleVec, List.map_cons, dotR]
    rw [show ys.map (fun z => c * z) = scaleVec c ys from rfl, ih]
    ring

theorem vecNorm_scale (c : ℝ) (hc : 0 ≤ c) (v : List ℝ) :
    vecNorm (scaleVec c v) = c * vecNorm v := by
  unfold vecNorm
  rw [dotR_scale_self, Real.sqrt_mul (sq_nonneg c), Real.sqrt_sq hc]

theorem cosineDistance_scale_self (c : ℝ) (hc : 0 < c) (v : List ℝ)
    (hv : dotR v v ≠ 0) : cosineDistance v (scaleVec c v) = 0 := by
  unfold cosineDistance
  rw [dotR_scale_right, vecNorm_scale c (le_of_lt hc)]
  unfold vecNorm
  rw [show Real.sqrt (dotR v v) * (c * Real.sqrt (dotR v v)) =
      c * (Real.sqrt (dotR v v) * Real.sqrt (dotR v v)) from by ring,
    Real.mul_self_sqrt (dotR_nonneg v),
    div_self (mul_ne_zero (ne_of_gt hc) hv)]
  ring

theorem furthestStep_scale (pEmb : List ℝ) (own : Option String) (c : ℝ)
    (hc : 0 < c) (acc : ℝ × Option String) (name : String) (v : List ℝ) :
    furthestStep pEmb own acc (name, scaleVec c v) =
      furthestStep pEmb own acc (name, v) := by
  simp only [furthestStep]
  by_cases hown : some name = own
  · rw [if_pos hown, if_pos hown]
  · rw [if_neg hown, if_neg hown, vecNorm_scale c (le_of_lt hc)]
    by_cases hz : vecNorm v = 0
    · rw [hz, mul_zero]
      simp
    · rw [if_neg (mul_ne_zero (ne_of_gt hc) hz), if_neg hz]
      have hdist : dotR pEmb (scaleVec c v) / (vecNorm pEmb * (c * vecNorm v)) =
          dotR pEmb v / (vecNorm pEmb * vecNorm v) := by
        rw [dotR_scale_right,
          show vecNorm pEmb * (c * vecNorm v) =
            c * (vecNorm pEmb * vecNorm v) from by ring]
        exact mul_div_mul_left _ _ (ne_of_gt hc)
      rw [hdist]

/-- C9: in the `cluster_embedding` strategy's cosine computation, an
aggregate embedding and its positive scaling have cosine distance 0 to each
other, and the strategy's furthest-option selection is invariant under
positive scaling of any option's aggregate embedding. -/
theorem claim_C9_cosine_scale_invariance (c : ℝ) (v e pEmb : List ℝ)
    (own : Option String) (name : String) (l₁ l₂ : List (String × List ℝ))
    (hc : 0 < c) (hv : dotR v v ≠ 0) :
    cosineDistance v (scaleVec c v) = 0 ∧
    furthestSelection pEmb own (l₁ ++ (name, scaleVec c e) :: l₂) =
      furthestSelection pEmb own (l₁ ++ (name, e) :: l₂) := by
  refine ⟨cosineDistance_scale_self c hc v hv, ?_⟩
  unfold furthestSelection
  rw [List.foldl_append, List.foldl_append, List.foldl_cons, List.foldl_cons,
    furthestStep_scale pEmb own c hc _ name e]

/-- Witness for C9: the one-dimensional vector `[1]` scaled by 2. -/
theorem claim_C9_cosine_scale_invariance_witness :
    cosineDistance [(1 : ℝ)] (scaleVec 2 [1]) = 0 ∧
    furthestSelection [(1 : ℝ)] none
        ([] ++ ("A", scaleVec 2 [(1 : ℝ)]) :: []) =
      furthestSelection [(1 : ℝ)] none ([] ++ ("A", [(1 : ℝ)]) :: []) :=
  claim_C9_cosine_scale_invariance 2 [1] [1] [1] none "A" [] []
    (by norm_num) (by norm_num [dotR])
